import Mathlib

/-!
Verification development for the static-site generator `blog/generate.py`
of the julianmontez.com repository.  Python functions are shallowly
embedded as executable Lean definitions; strings are modelled by `String`
(a structure over `List Char`), Python `None`-able values by `Option`,
and fallible functions by `Except`.  Each definition carries a comment
pointing at the source lines it embeds.
-/

namespace Blog

/-- Characters treated as whitespace by Python `str.strip` / `str.lstrip`
(space, tab, newline, carriage return, vertical tab, form feed). -/
def pySpace (c : Char) : Bool :=
  c == ' ' || c == '\t' || c == '\n' || c == '\r' || c == '\x0b' || c == '\x0c'

/-- Python `s.strip()`: drop whitespace from both ends. -/
def pyStrip (s : String) : String :=
  String.mk (((s.data.dropWhile pySpace).reverse.dropWhile pySpace).reverse)

/-- Python `s.lstrip()`: drop whitespace from the start. -/
def pyLstrip (s : String) : String :=
  String.mk (s.data.dropWhile pySpace)

/-- Python `s.rstrip("/")`: drop slashes from the end. -/
def rstripSlash (s : String) : String :=
  String.mk ((s.data.reverse.dropWhile (fun c => c == '/')).reverse)

/-- Python `s.lstrip("/")`: drop slashes from the start. -/
def lstripSlash (s : String) : String :=
  String.mk (s.data.dropWhile (fun c => c == '/'))

/-- Doubled slash `//` occurring anywhere in a character list. -/
def hasDSL : List Char → Bool
  | c1 :: c2 :: rest => (c1 == '/' && c2 == '/') || hasDSL (c2 :: rest)
  | _ => false

/-- Doubled slash `//` occurring anywhere in a string. -/
def hasDS (s : String) : Bool := hasDSL s.data

/-- Python `s.startswith(t)` for a single candidate. -/
def pyStartsWith (s t : String) : Bool := List.isPrefixOf t.data s.data

/-- Embeds `is_absolute_url` (generate.py lines 335-337): strip whitespace,
then test for an `http://` or `https://` scheme. -/
def is_absolute_url (value : String) : Bool :=
  let v := pyStrip value
  pyStartsWith v "http://" || pyStartsWith v "https://"

/-- Embeds `public_base_url` (generate.py lines 340-352).  The site config is
modelled by its two URL fields; `str(... or "").strip().rstrip("/")` becomes
`rstripSlash (pyStrip _)`.  Returns `none` for relative mode. -/
def public_base_url (base_url site_url : String) : Option String :=
  let b0 := rstripSlash (pyStrip base_url)
  let s0 := rstripSlash (pyStrip site_url)
  if is_absolute_url b0 then some b0
  else if s0 = "" then none
  else
    let b1 := if b0 ≠ "" && !(pyStartsWith b0 "/") then "/" ++ b0 else b0
    some (s0 ++ b1)

/-- Embeds `public_path_prefix` (generate.py lines 355-361): the path
prefix used in relative mode. -/
def public_path_pfx (base_url : String) : String :=
  let b := rstripSlash (pyStrip base_url)
  if b = "" then ""
  else if is_absolute_url b then ""
  else if pyStartsWith b "/" then b else "/" ++ b

/-- Embeds `join_relative_url` (generate.py lines 364-371).  The Python
source has a separate branch for `prefix == "."`, which produces the same
`f"{prefix}/{path}"` string as the final branch; both are kept here. -/
def join_relative_url (pfx pth : String) : String :=
  let p := rstripSlash pfx
  let q := lstripSlash pth
  if q = "" then (if p = "" then "/" else p ++ "/")
  else if p = "" then "/" ++ q
  else if p = "." then p ++ "/" ++ q
  else p ++ "/" ++ q

/-- Embeds `join_absolute_url` (generate.py lines 374-375), which calls
`urllib.parse.urljoin(base.rstrip("/") + "/", path.lstrip("/"))`.  For the
references this program produces — a relative path with no scheme, no
leading slash (just stripped) and no `.`/`..` segments — `urljoin` appends
the reference to the base ending in `/`, which is what is modelled here. -/
def join_absolute_url (base pth : String) : String :=
  rstripSlash base ++ "/" ++ lstripSlash pth

/-- Embeds the canonical-URL computation of `render_page`
(generate.py lines 393-405): absolute mode when `public_base_url` yields an
origin, relative mode otherwise. -/
def canonical_url (base_url site_url pagePath : String) : String :=
  match public_base_url base_url site_url with
  | some ab => join_absolute_url ab pagePath
  | none => join_relative_url (public_path_pfx base_url) pagePath

/-- Embeds `compute_assets_prefix` (generate.py lines 324-332).  The emitted
document is identified by the list of directory segments of its parent
directory below the output root `DIST_DIR`; `os.path.relpath(DIST_DIR, dir)`
for a directory `depth` levels below the root is `../../...` with `depth`
components. -/
def compute_assets_pfx (dirSegs : List String) (base_url : String) : String :=
  if base_url ≠ "" then rstripSlash base_url
  else if dirSegs = [] then "."
  else String.intercalate "/" (List.replicate dirSegs.length "..")

/-- Spec-side definition (used only to state claims against the code): the
relative filesystem path from an emitted document's output directory back
to the output root, collapsed to `.` at the root and otherwise rendered
without a trailing slash. -/
def specAssetsRelPath (dirSegs : List String) : String :=
  if dirSegs = [] then "." else String.intercalate "/" (List.replicate dirSegs.length "..")

/-- Python `s.lower()` restricted to ASCII case mapping. -/
def pyLower (s : String) : String := String.mk (s.data.map Char.toLower)

/-- Embeds the extension allow-list test of `generate_variants`
(generate.py lines 213-214): `suffix.lower() in {".jpg", ".jpeg", ".png", ".webp"}`. -/
def allowedSuffix (suffix : String) : Bool :=
  let l := pyLower suffix
  l == ".jpg" || l == ".jpeg" || l == ".png" || l == ".webp"

/-- Python `round(num / den)` for `den > 0`, assuming the float quotient is
evaluated exactly: round half to even (banker's rounding). -/
def pyRoundDiv (num den : Nat) : Nat :=
  let q := num / den
  let r := num % den
  if 2 * r < den then q
  else if den < 2 * r then q + 1
  else if q % 2 = 0 then q else q + 1

/-- Embeds the resize height of `generate_variants` (generate.py line 225):
`max(1, round(src_height * (target_width / src_width)))`. -/
def variantHeight (W H t : Nat) : Nat := max 1 (pyRoundDiv (H * t) W)

/-- Embeds the variant file name of `generate_variants` (generate.py
line 226): `f"{stem}-{width}w{suffix}"`. -/
def variantName (stem : String) (t : Nat) (suffix : String) : String :=
  stem ++ "-" ++ toString t ++ "w" ++ suffix

/-- Embeds `generate_variants` (generate.py lines 206-241) at the level of
the returned `(relative path, width)` list.  `origRel` is the dist-relative
path of the unresized original (`dist_path.relative_to(DIST_DIR)`); the
resized variants live next to it so only the file name matters here.
Unknown (`None`) dimensions are modelled by `0`, matching Python falsiness
in `if not src_width or not src_height`. -/
def generate_variants (stem suffix origRel : String) (widths : List Nat)
    (W H : Nat) : List (String × Nat) :=
  if W = 0 || H = 0 then []
  else if !(allowedSuffix suffix) then []
  else
    (widths.filter (fun t => t < W)).map (fun t => (variantName stem t suffix, t))
      ++ [(origRel, W)]

/-- The configured responsive target widths (generate.py line 39). -/
def RESPONSIVE_WIDTHS : List Nat := [480, 720, 1080]

/-- Ordering used by `sorted(srcset, key=lambda item: item[1])`. -/
def widthLE (a b : String × Nat) : Prop := a.2 ≤ b.2

instance : DecidableRel widthLE := fun a b => inferInstanceAs (Decidable (a.2 ≤ b.2))

instance : IsTotal (String × Nat) widthLE := ⟨fun a b => Nat.le_total a.2 b.2⟩

instance : IsTrans (String × Nat) widthLE := ⟨fun _ _ _ hab hbc => Nat.le_trans hab hbc⟩

/-- Embeds `sorted(srcset, key=lambda item: item[1])` (generate.py
line 251); Mathlib's insertion sort is, like Python's sort, a stable sort
producing a `widthLE`-sorted permutation. -/
def sortedBySnd (l : List (String × Nat)) : List (String × Nat) :=
  List.insertionSort widthLE l

/-- Embeds the selection loop of `choose_primary_src` (generate.py
lines 249-255) at the level of `(path, width)` pairs: first sorted entry at
or above the target width, else the widest; `none` only for an empty
srcset. -/
def choosePrimaryPair (srcset : List (String × Nat)) (target : Nat) :
    Option (String × Nat) :=
  let s := sortedBySnd srcset
  match s.find? (fun pw => target ≤ pw.2) with
  | some pw => some pw
  | none => s.getLast?

/-- Embeds `choose_primary_src` (generate.py lines 244-255).  The default
Python argument `target_width = 1040` is passed explicitly. -/
def choose_primary_src (srcset : List (String × Nat)) (fallback : String)
    (target : Nat) : String :=
  if srcset = [] then fallback
  else
    match choosePrimaryPair srcset target with
    | some pw => pw.1
    | none => fallback

/-- Splits a character list at every newline; every text, including the
empty one, yields at least one (possibly empty) piece. -/
def splitNL : List Char → List (List Char)
  | [] => [[]]
  | '\n' :: rest => [] :: splitNL rest
  | c :: rest =>
    match splitNL rest with
    | [] => [[c]]
    | h :: t => (c :: h) :: t

/-- Python `str.splitlines` restricted to `\n` separators: the empty text
has no lines, and a trailing newline does not open a final empty line. -/
def pySplitlines (s : String) : List String :=
  if s = "" then []
  else
    let parts := (splitNL s.data).map String.mk
    if s.data.getLast? = some '\n' then parts.dropLast else parts

/-- Embeds `parse_front_matter` (generate.py lines 81-98).  The TOML parse
of the header (`tomllib.loads`, an external collaborator) is not modelled:
the raw header text handed to it is returned instead.  The first line,
stripped, must be `+++` or `++++`; the same token must reappear, stripped,
on a later line; the body is everything after that line, `lstrip`-ped. -/
def parse_front_matter (raw : String) : Except String (String × String) :=
  match pySplitlines raw with
  | [] => Except.error "Empty post"
  | l0 :: rest =>
    let delim := pyStrip l0
    if delim = "+++" ∨ delim = "++++" then
      match rest.findIdx? (fun l => pyStrip l == delim) with
      | none => Except.error "Front matter closing not found"
      | some i =>
        Except.ok
          (String.intercalate "\n" (rest.take i),
            pyLstrip (String.intercalate "\n" (rest.drop (i + 1))))
    else Except.error "Front matter must start with +++ or ++++"

/-- One entry of the TOML `images` list: a bare string, a table (with
optional `src`, `path` and `alt` keys, each a TOML value rendered to a
string), or a value of any other shape. -/
inductive ImgEntry where
  | str (s : String)
  | table (src : Option String) (pth : Option String) (alt : Option String)
  | other
deriving DecidableEq

/-- Embeds `item.get("src") or item.get("path")` (generate.py line 118):
Python `or` falls through when `src` is missing or empty. -/
def tableSrc (src pth : Option String) : Option String :=
  match src with
  | some s => if s = "" then pth else some s
  | none => pth

/-- Embeds the loop of `parse_images` (generate.py lines 101-129): bare
strings contribute `(path, no alt)`, tables must carry a non-empty
`src`/`path`, anything else raises the invalid-image-entry error. -/
def parse_images : List ImgEntry → Except String (List String × List (Option String))
  | [] => Except.ok ([], [])
  | ImgEntry.str s :: rest =>
    match parse_images rest with
    | Except.error e => Except.error e
    | Except.ok (imgs, alts) => Except.ok (s :: imgs, none :: alts)
  | ImgEntry.table src pth alt :: rest =>
    match tableSrc src pth with
    | none => Except.error "missing src"
    | some s =>
      if s = "" then Except.error "missing src"
      else
        match parse_images rest with
        | Except.error e => Except.error e
        | Except.ok (imgs, alts) => Except.ok (s :: imgs, alt :: alts)
  | ImgEntry.other :: _ => Except.error "expected string or table"

/-- Embeds the alt lookup of `attach_image_meta` (generate.py line 267):
`post.image_alts[idx] if idx < len(post.image_alts) else None`. -/
def altAt (alts : List (Option String)) (idx : Nat) : Option String :=
  List.getD alts idx none

/-- Identity of a post source file under the posts tree: subdirectory
segments, filename stem and extension (`parse_post` reads `path.stem`,
generate.py line 145). -/
structure SrcPath where
  dirs : List String
  stem : String
  ext : String
deriving DecidableEq

/-- Embeds `slug = path.stem` (generate.py line 145). -/
def slugOf (p : SrcPath) : String := p.stem

/-- Python `f"{month:02d}"` for months 1-12. -/
def pad2 (m : Nat) : String := if m < 10 then "0" ++ toString m else toString m

/-- Embeds `url = f"{date.year}/{date.month:02d}/{slug}/"` (generate.py
line 149). -/
def postUrl (y m : Nat) (slug : String) : String :=
  toString y ++ "/" ++ pad2 m ++ "/" ++ slug ++ "/"

/-- Page size of the paginated index (generate.py line 38). -/
def POSTS_PER_PAGE : Nat := 10

/-- Embeds `max(1, math.ceil(len(posts) / POSTS_PER_PAGE))` (generate.py
line 444); the ceiling of an exact division of naturals is `(n + d - 1) / d`. -/
def totalPages (n : Nat) : Nat :=
  max 1 ((n + POSTS_PER_PAGE - 1) / POSTS_PER_PAGE)

/-- Embeds the page slice `posts_list[start:end]` (generate.py
lines 446-448). -/
def pagePosts {α : Type} (posts : List α) (k : Nat) : List α :=
  (posts.drop ((k - 1) * POSTS_PER_PAGE)).take POSTS_PER_PAGE

/-- Embeds `page_output_path` (generate.py lines 431-434) as the directory
segments of the emitted `index.html` below the output root. -/
def pageOutputDir (k : Nat) : List String :=
  if k = 1 then [] else ["page", toString k]

/-- Longest-common-prefix removal on directory segment lists, the core of
`os.path.relpath`. -/
def dropCommon : List String → List String → List String × List String
  | a :: as, b :: bs => if a = b then dropCommon as bs else (a :: as, b :: bs)
  | as, bs => (as, bs)

/-- Embeds `os.path.relpath(target, start)` on directories below the output
root, rendered POSIX style: `..` for every remaining start segment, then
the remaining target segments, or `.` when nothing remains. -/
def relpathStr (target src : List String) : String :=
  let tf := dropCommon target src
  let parts := List.replicate tf.2.length ".." ++ tf.1
  if parts = [] then "." else String.intercalate "/" parts

/-- Embeds `rel_link` (generate.py lines 436-442) between two emitted
`index.html` documents given by their directory segments. -/
def relLink (fromDir toDir : List String) : String :=
  let rel := relpathStr toDir fromDir
  if rel = "" ∨ rel = "." then "./" else rstripSlash rel ++ "/"

/-- Embeds the `prev_url` entry of `pagination` (generate.py lines 453-455)
for page `k` of `n` posts. -/
def prevUrl (_n k : Nat) : Option String :=
  if 1 < k then some (relLink (pageOutputDir k) (pageOutputDir (k - 1))) else none

/-- Embeds the `next_url` entry of `pagination` (generate.py lines 456-458)
for page `k` of `n` posts. -/
def nextUrl (n k : Nat) : Option String :=
  if k < totalPages n then some (relLink (pageOutputDir k) (pageOutputDir (k + 1)))
  else none

/-- Observable state of the published output directory during a run. -/
inductive DistState where
  | untouched
  | clearedAssetsOnly
  | built
deriving DecidableEq

/-- Inputs of one generator run, abstracted to what `main` branches on:
whether the config file exists, and the raw texts of the post files. -/
structure BuildInput where
  configExists : Bool
  postFiles : List String

/-- Embeds the statement order of `main` (generate.py lines 593-623): the
config-existence check (line 603) aborts before anything is touched;
`ensure_empty_dir(DIST_DIR)` (line 608) and `copy_assets()` (line 609) run
next; only then does `collect_posts()` (line 611) parse and validate the
posts, aborting on the first malformed one.  Post validity is abstracted to
front-matter well-formedness (date and image validation happen inside the
same `collect_posts` call, after the clearing as well). -/
def runMain (inp : BuildInput) : Except String Unit × DistState :=
  if !inp.configExists then (Except.error "Config not found", DistState.untouched)
  else if inp.postFiles.all (fun r => (parse_front_matter r).isOk) then
    (Except.ok (), DistState.built)
  else (Except.error "Malformed post", DistState.clearedAssetsOnly)

/-- Spec-side definition (claim C7's wording): front-matter parsing should
fail exactly when the text is empty (no non-empty line), its first
non-empty line is not a recognized delimiter token, or the token does not
reappear on a later line. -/
def specFrontMatterFails (raw : String) : Bool :=
  match (pySplitlines raw).findIdx? (fun l => !(l == "")) with
  | none => true
  | some i =>
    let d := pyStrip ((pySplitlines raw).getD i "")
    if d = "+++" ∨ d = "++++" then
      !(((pySplitlines raw).drop (i + 1)).any (fun x => pyStrip x == d))
    else true

/-- Spec-side definition (claim C7's wording): leading blank
(whitespace-only) lines stripped from a body text. -/
def specStripLeadingBlankLines (s : String) : String :=
  String.intercalate "\n" ((pySplitlines s).dropWhile (fun l => pyStrip l == ""))

lemma string_eq_of_data {a b : String} (h : a.data = b.data) : a = b := by
  cases a
  cases b
  exact congrArg String.mk h

lemma hasDSL_cons_false {c : Char} {t : List Char} (h : hasDSL (c :: t) = false) :
    hasDSL t = false := by
  cases t with
  | nil => rfl
  | cons d u =>
    simp only [hasDSL, Bool.or_eq_false_iff] at h
    exact h.2

lemma hasDSL_append_left {a b : List Char} (h : hasDSL (a ++ b) = false) :
    hasDSL a = false := by
  induction a with
  | nil => rfl
  | cons c xs ih =>
    cases xs with
    | nil => rfl
    | cons d ys =>
      simp only [List.cons_append] at h
      simp only [hasDSL, Bool.or_eq_false_iff] at h ⊢
      exact ⟨h.1, ih (by simpa using h.2)⟩

lemma hasDSL_append_right {a b : List Char} (h : hasDSL (a ++ b) = false) :
    hasDSL b = false := by
  induction a with
  | nil => simpa using h
  | cons c xs ih => exact ih (hasDSL_cons_false (by simpa using h))

lemma hasDSL_append_false {a b : List Char} (hb : hasDSL b = false) :
    hasDSL a = false → (a.getLast? ≠ some '/' ∨ b.head? ≠ some '/') →
    hasDSL (a ++ b) = false := by
  induction a with
  | nil => intro _ _; simpa using hb
  | cons c xs ih =>
    intro ha hj
    cases xs with
    | nil =>
      cases b with
      | nil => rfl
      | cons d u =>
        simp only [List.cons_append, List.nil_append, hasDSL, Bool.or_eq_false_iff]
        refine ⟨?_, hb⟩
        rcases hj with h | h
        · have hc : c ≠ '/' := by simpa using h
          simp [hc]
        · have hd : d ≠ '/' := by simpa using h
          simp [hd]
    | cons c2 ys =>
      simp only [List.cons_append] at ha hj ⊢
      simp only [hasDSL, Bool.or_eq_false_iff] at ha ⊢
      refine ⟨ha.1, ?_⟩
      have hj2 : (c2 :: ys).getLast? ≠ some '/' ∨ b.head? ≠ some '/' := by
        rcases hj with h | h
        · left
          rwa [List.getLast?_cons_cons] at h
        · right
          exact h
      exact ih ha.2 hj2

lemma dropWhile_head_not {p : Char → Bool} :
    ∀ (l : List Char) {c : Char}, (l.dropWhile p).head? = some c → p c = false := by
  intro l
  induction l with
  | nil => intro c h; simp at h
  | cons a t ih =>
    intro c h
    rw [List.dropWhile_cons] at h
    by_cases hpa : p a
    · rw [if_pos hpa] at h
      exact ih h
    · rw [if_neg hpa] at h
      simp only [List.head?_cons, Option.some.injEq] at h
      subst h
      exact Bool.not_eq_true _ ▸ by simpa using hpa

lemma hasDS_lstripSlash {s : String} (h : hasDS s = false) :
    hasDS (lstripSlash s) = false := by
  have h2 : hasDSL (List.takeWhile (fun c => c == '/') s.data ++
      List.dropWhile (fun c => c == '/') s.data) = false := by
    rw [List.takeWhile_append_dropWhile]
    exact h
  exact hasDSL_append_right h2

lemma hasDS_rstripSlash {s : String} (h : hasDS s = false) :
    hasDS (rstripSlash s) = false := by
  have h2 : hasDSL ((List.dropWhile (fun c => c == '/') s.data.reverse).reverse ++
      (List.takeWhile (fun c => c == '/') s.data.reverse).reverse) = false := by
    rw [← List.reverse_append, List.takeWhile_append_dropWhile, List.reverse_reverse]
    exact h
  exact hasDSL_append_left h2

lemma getLast_rstripSlash {s : String} : (rstripSlash s).data.getLast? ≠ some '/' := by
  intro h
  have h2 : (List.dropWhile (fun c => c == '/') s.data.reverse).reverse.getLast? =
      some '/' := h
  rw [List.getLast?_reverse] at h2
  have := dropWhile_head_not _ h2
  simp at this

lemma head_lstripSlash {s : String} : (lstripSlash s).data.head? ≠ some '/' := by
  intro h
  have := dropWhile_head_not _ h
  simp at this

lemma join_relative_noDS (pfx pth : String) (h1 : hasDS pfx = false)
    (h2 : hasDS pth = false) : hasDS (join_relative_url pfx pth) = false := by
  have hpD : hasDSL (rstripSlash pfx).data = false := hasDS_rstripSlash h1
  have hqD : hasDSL (lstripSlash pth).data = false := hasDS_lstripSlash h2
  have hpL : (rstripSlash pfx).data.getLast? ≠ some '/' := getLast_rstripSlash
  have hqH : (lstripSlash pth).data.head? ≠ some '/' := head_lstripSlash
  have core : hasDS (rstripSlash pfx ++ "/" ++ lstripSlash pth) = false := by
    show hasDSL (rstripSlash pfx ++ "/" ++ lstripSlash pth).data = false
    rw [String.data_append, String.data_append]
    have step1 : hasDSL ((rstripSlash pfx).data ++ ("/" : String).data) = false :=
      hasDSL_append_false rfl hpD (Or.inl hpL)
    exact hasDSL_append_false hqD step1 (Or.inr hqH)
  simp only [join_relative_url]
  by_cases hq0 : lstripSlash pth = ""
  · rw [if_pos hq0]
    by_cases hp0 : rstripSlash pfx = ""
    · rw [if_pos hp0]; rfl
    · rw [if_neg hp0]
      show hasDSL (rstripSlash pfx ++ "/").data = false
      rw [String.data_append]
      exact hasDSL_append_false rfl hpD (Or.inl hpL)
  · rw [if_neg hq0]
    by_cases hp0 : rstripSlash pfx = ""
    · rw [if_pos hp0]
      show hasDSL (("/" : String) ++ lstripSlash pth).data = false
      rw [String.data_append]
      exact hasDSL_append_false hqD rfl (Or.inr hqH)
    · rw [if_neg hp0]
      by_cases hpd : rstripSlash pfx = "."
      · rw [if_pos hpd]
        exact core
      · rw [if_neg hpd]
        exact core

lemma dropWhile_append_of_exists {p : Char → Bool} :
    ∀ (x y : List Char), (∃ c ∈ x, p c = false) →
    List.dropWhile p (x ++ y) = List.dropWhile p x ++ y := by
  intro x
  induction x with
  | nil =>
    intro y h
    rcases h with ⟨c, hc, _⟩
    exact absurd hc (List.not_mem_nil c)
  | cons a t ih =>
    intro y h
    rw [List.cons_append, List.dropWhile_cons, List.dropWhile_cons]
    by_cases hpa : p a
    · rw [if_pos hpa, if_pos hpa]
      apply ih
      rcases h with ⟨c, hc, hcp⟩
      rcases List.mem_cons.mp hc with rfl | hmem
      · exact absurd hpa (by simp [hcp])
      · exact ⟨c, hmem, hcp⟩
    · rw [if_neg hpa, if_neg hpa]
      rw [List.cons_append]

lemma join_absolute_noDS (t pth : String) (ht : hasDS t = false) (htne : t ≠ "")
    (hth : t.data.head? ≠ some '/') (hp : hasDS pth = false) :
    ∃ r : String, join_absolute_url ("http://" ++ t) pth = "http://" ++ r ∧
      hasDS r = false := by
  refine ⟨rstripSlash t ++ "/" ++ lstripSlash pth, ?_, ?_⟩
  · apply string_eq_of_data
    have hx : ∃ c ∈ t.data.reverse, (c == '/') = false := by
      cases hd : t.data with
      | nil => exact absurd (string_eq_of_data (by simp [hd])) htne
      | cons c cs =>
        refine ⟨c, ?_, ?_⟩
        · exact List.mem_reverse.mpr (List.mem_cons_self c cs)
        · have hc : c ≠ '/' := by
            intro e
            apply hth
            rw [hd, e]
            rfl
          simpa using hc
    show (rstripSlash ("http://" ++ t) ++ "/" ++ lstripSlash pth).data =
      (("http://" : String) ++ (rstripSlash t ++ "/" ++ lstripSlash pth)).data
    have hkey : (rstripSlash ("http://" ++ t)).data =
        ("http://" : String).data ++ (rstripSlash t).data := by
      show (("http://" ++ t).data.reverse.dropWhile (fun c => c == '/')).reverse =
        ("http://" : String).data ++ (t.data.reverse.dropWhile (fun c => c == '/')).reverse
      rw [String.data_append, List.reverse_append,
        dropWhile_append_of_exists _ _ hx, List.reverse_append, List.reverse_reverse]
    simp only [String.data_append, hkey, List.append_assoc]
  · show hasDSL (rstripSlash t ++ "/" ++ lstripSlash pth).data = false
    rw [String.data_append, String.data_append]
    have step1 : hasDSL ((rstripSlash t).data ++ ("/" : String).data) = false :=
      hasDSL_append_false rfl (hasDS_rstripSlash ht) (Or.inl getLast_rstripSlash)
    exact hasDSL_append_false (hasDS_lstripSlash hp) step1 (Or.inr head_lstripSlash)

lemma postUrl_inj_slug {y m : Nat} {s1 s2 : String}
    (h : postUrl y m s1 = postUrl y m s2) : s1 = s2 := by
  unfold postUrl at h
  have hd := congrArg String.data h
  simp only [String.data_append, List.append_assoc] at hd
  have h1 := List.append_cancel_left hd
  have h2 := List.append_cancel_left h1
  have h3 := List.append_cancel_left h2
  have h4 := List.append_cancel_left h3
  exact string_eq_of_data (List.append_cancel_right h4)

/-- C1 (corrected).  In absolute mode, origin `http://example.com` with
path prefix `/blog` resolves the logical path `2024/01/x/` to
`http://example.com/blog/2024/01/x/`; in relative mode with an empty
prefix it resolves to `/2024/01/x/`.  The doubled-slash clause holds for
every prefix and logical path that themselves contain no doubled slash:
in relative mode the resolved URL then contains no `//` at all, and in
absolute mode (scheme-led base whose remainder is nonempty, does not start
with a slash and is free of doubled slashes) no `//` beyond the scheme
separator. -/
theorem claim_C1 :
    canonical_url "/blog" "http://example.com" "2024/01/x/" =
      "http://example.com/blog/2024/01/x/" ∧
    canonical_url "" "" "2024/01/x/" = "/2024/01/x/" ∧
    (∀ pfx pth : String, hasDS pfx = false → hasDS pth = false →
      hasDS (join_relative_url pfx pth) = false) ∧
    (∀ t pth : String, hasDS t = false → t ≠ "" → t.data.head? ≠ some '/' →
      hasDS pth = false →
      ∃ r : String, join_absolute_url ("http://" ++ t) pth = "http://" ++ r ∧
        hasDS r = false) :=
  ⟨by decide, by decide, join_relative_noDS, join_absolute_noDS⟩

/-- Witness for C1: the doubled-slash clause evaluated at the concrete
prefix `/blog` and logical path `2024/01/x/`. -/
theorem claim_C1_witness :
    hasDS (join_relative_url "/blog" "2024/01/x/") = false :=
  claim_C1.2.2.1 "/blog" "2024/01/x/" (by decide) (by decide)

/-- Counterexample for C1 as stated: with the configured prefix derived
from `base_url = "a//b"` (itself containing a doubled slash), the resolved
URL for path `x/` contains a doubled slash that is not a scheme
separator. -/
theorem claim_C1_counterexample :
    canonical_url "a//b" "" "x/" = "/a//b/x/" ∧
    hasDS (canonical_url "a//b" "" "x/") = true ∧
    pyStartsWith (canonical_url "a//b" "" "x/") "http://" = false ∧
    pyStartsWith (canonical_url "a//b" "" "x/") "https://" = false := by
  decide

/-- C2 (corrected).  The assets prefix equals the relative filesystem path
from the document's output directory back to the output root exactly when
`base_url` is empty; when `base_url` is nonempty, `compute_assets_prefix`
instead returns `base_url` with trailing slashes stripped, so the
computation is not independent of the deployment configuration. -/
theorem claim_C2 : ∀ (dirSegs : List String) (base_url : String),
    (base_url = "" → compute_assets_pfx dirSegs base_url = specAssetsRelPath dirSegs) ∧
    (base_url ≠ "" → compute_assets_pfx dirSegs base_url = rstripSlash base_url) := by
  intro segs b
  constructor
  · intro h
    subst h
    simp [compute_assets_pfx, specAssetsRelPath]
  · intro h
    simp [compute_assets_pfx, h]

/-- Witness for C2: with no `base_url`, the document at `2024/01/x/` gets
assets prefix `../../..`, the relative path back to the output root. -/
theorem claim_C2_witness :
    compute_assets_pfx ["2024", "01", "x"] "" = specAssetsRelPath ["2024", "01", "x"] :=
  (claim_C2 ["2024", "01", "x"] "").1 rfl

/-- Counterexample for C2 as stated: with `base_url = "/blog"` the assets
prefix of the document at `2024/01/x/` is `/blog`, not the relative
filesystem path `../../..` back to the output root. -/
theorem claim_C2_counterexample :
    compute_assets_pfx ["2024", "01", "x"] "/blog" ≠
      specAssetsRelPath ["2024", "01", "x"] := by
  decide

/-- C8 (corrected).  A run aborting on a missing config file leaves the
previously published output untouched; but the output root is cleared and
assets copied before post validation runs, so a run aborting on a
malformed post leaves the output root cleared with assets only — neither
untouched nor fully built. -/
theorem claim_C8 : ∀ inp : BuildInput,
    (inp.configExists = false →
      runMain inp = (Except.error "Config not found", DistState.untouched)) ∧
    (inp.configExists = true →
      inp.postFiles.all (fun r => (parse_front_matter r).isOk) = true →
      runMain inp = (Except.ok (), DistState.built)) ∧
    (inp.configExists = true →
      inp.postFiles.all (fun r => (parse_front_matter r).isOk) = false →
      runMain inp = (Except.error "Malformed post", DistState.clearedAssetsOnly)) := by
  intro inp
  obtain ⟨cfg, posts⟩ := inp
  refine ⟨?_, ?_, ?_⟩
  · intro h
    simp only at h
    simp [runMain, h]
  · intro h1 h2
    simp only at h1 h2
    simp [runMain, h1, h2]
  · intro h1 h2
    simp only at h1 h2
    simp [runMain, h1, h2]

/-- Witness for C8: a run with a missing config aborts with the output
untouched. -/
theorem claim_C8_witness :
    runMain ⟨false, []⟩ = (Except.error "Config not found", DistState.untouched) :=
  (claim_C8 ⟨false, []⟩).1 rfl

/-- Counterexample for C8 as stated: a run over one malformed post aborts
fatally, yet the output root is neither untouched nor fully built — it has
been cleared (with assets copied) before post validation. -/
theorem claim_C8_counterexample :
    (runMain ⟨true, ["no front matter"]⟩).1.isOk = false ∧
    (runMain ⟨true, ["no front matter"]⟩).2 ≠ DistState.untouched ∧
    (runMain ⟨true, ["no front matter"]⟩).2 ≠ DistState.built := by
  refine ⟨rfl, ?_, ?_⟩ <;> decide

/-- C9 (corrected).  Slugs are unique whenever the source filename stems
are unique: two posts whose stems differ have different slugs, and — for
posts sharing a year and month, the only case in which slug uniqueness is
what separates the permalinks — different permalink paths.  Distinct
source files with equal stems in different subdirectories do share a
slug. -/
theorem claim_C9 : ∀ p1 p2 : SrcPath, p1.stem ≠ p2.stem →
    slugOf p1 ≠ slugOf p2 ∧
    ∀ y m : Nat, postUrl y m (slugOf p1) ≠ postUrl y m (slugOf p2) := by
  intro p1 p2 h
  refine ⟨h, ?_⟩
  intro y m hc
  exact h (postUrl_inj_slug hc)

/-- Witness for C9: two flat post files `a.md` and `b.md` get distinct
slugs. -/
theorem claim_C9_witness :
    slugOf ⟨[], "a", ".md"⟩ ≠ slugOf ⟨[], "b", ".md"⟩ :=
  (claim_C9 ⟨[], "a", ".md"⟩ ⟨[], "b", ".md"⟩ (by decide)).1

/-- Counterexample for C9 as stated: the distinct source files
`posts/a/hello.md` and `posts/b/hello.md` share the slug `hello`, and with
equal dates they share a permalink path as well. -/
theorem claim_C9_counterexample :
    (⟨["a"], "hello", ".md"⟩ : SrcPath) ≠ ⟨["b"], "hello", ".md"⟩ ∧
    slugOf ⟨["a"], "hello", ".md"⟩ = slugOf ⟨["b"], "hello", ".md"⟩ ∧
    postUrl 2024 1 (slugOf ⟨["a"], "hello", ".md"⟩) =
      postUrl 2024 1 (slugOf ⟨["b"], "hello", ".md"⟩) := by
  refine ⟨?_, rfl, rfl⟩
  decide

/-- C10 (confirmed).  Whenever `parse_images` accepts an images list, the
returned paths and alt lists have one entry per input entry (hence equal
lengths and an always-in-range per-index alt lookup in
`attach_image_meta`), the i-th alt is the alt of the i-th path — `none`
for bare string entries, the table's `alt` field for table entries — and
every accepted table entry contributed its non-empty `src`-or-`path`
value. -/
theorem claim_C10 : ∀ (items : List ImgEntry) (imgs : List String)
    (alts : List (Option String)),
    parse_images items = Except.ok (imgs, alts) →
    imgs.length = items.length ∧ alts.length = items.length ∧
    (∀ i, i < imgs.length → i < alts.length) ∧
    (∀ i s, i < items.length → items.getD i ImgEntry.other = ImgEntry.str s →
      imgs.getD i "" = s ∧ altAt alts i = none) ∧
    (∀ i src pth alt, i < items.length →
      items.getD i ImgEntry.other = ImgEntry.table src pth alt →
      altAt alts i = alt ∧
      ∃ s, tableSrc src pth = some s ∧ s ≠ "" ∧ imgs.getD i "" = s) := by
  intro items
  induction items with
  | nil =>
    intro imgs alts h
    simp only [parse_images, Except.ok.injEq, Prod.mk.injEq] at h
    obtain ⟨h1, h2⟩ := h
    subst h1
    subst h2
    refine ⟨rfl, rfl, fun i hi => by simp at hi, ?_, ?_⟩
    · intro i s hi
      simp at hi
    · intro i src pth alt hi
      simp at hi
  | cons e rest ih =>
    intro imgs alts h
    cases e with
    | str s0 =>
      cases hr : parse_images rest with
      | error msg => simp [parse_images, hr] at h
      | ok pr =>
        obtain ⟨ri, ra⟩ := pr
        simp only [parse_images, hr, Except.ok.injEq, Prod.mk.injEq] at h
        obtain ⟨h1, h2⟩ := h
        subst h1
        subst h2
        obtain ⟨ihl1, ihl2, _, ihs, iht⟩ := ih ri ra hr
        refine ⟨by simp [ihl1], by simp [ihl2], ?_, ?_, ?_⟩
        · intro i hi
          simp only [List.length_cons] at hi ⊢
          omega
        · intro i s hi hs
          cases i with
          | zero =>
            simp only [List.getD_cons_zero, ImgEntry.str.injEq] at hs
            subst hs
            exact ⟨rfl, rfl⟩
          | succ j =>
            simp only [List.getD_cons_succ] at hs ⊢
            simp only [List.length_cons, Nat.succ_lt_succ_iff] at hi
            simpa [altAt] using ihs j s hi hs
        · intro i src pth alt hi ht
          cases i with
          | zero => simp at ht
          | succ j =>
            simp only [List.getD_cons_succ] at ht ⊢
            simp only [List.length_cons, Nat.succ_lt_succ_iff] at hi
            simpa [altAt] using iht j src pth alt hi ht
    | table src0 pth0 alt0 =>
      cases hsrc : tableSrc src0 pth0 with
      | none => simp [parse_images, hsrc] at h
      | some s0 =>
        by_cases hs0 : s0 = ""
        · simp [parse_images, hsrc, hs0] at h
        · cases hr : parse_images rest with
          | error msg => simp [parse_images, hsrc, hs0, hr] at h
          | ok pr =>
            obtain ⟨ri, ra⟩ := pr
            simp only [parse_images, hsrc, hr, if_neg hs0, Except.ok.injEq,
              Prod.mk.injEq] at h
            obtain ⟨h1, h2⟩ := h
            subst h1
            subst h2
            obtain ⟨ihl1, ihl2, _, ihs, iht⟩ := ih ri ra hr
            refine ⟨by simp [ihl1], by simp [ihl2], ?_, ?_, ?_⟩
            · intro i hi
              simp only [List.length_cons] at hi ⊢
              omega
            · intro i s hi hs
              cases i with
              | zero => simp at hs
              | succ j =>
                simp only [List.getD_cons_succ] at hs ⊢
                simp only [List.length_cons, Nat.succ_lt_succ_iff] at hi
                simpa [altAt] using ihs j s hi hs
            · intro i src pth alt hi ht
              cases i with
              | zero =>
                simp only [List.getD_cons_zero, ImgEntry.table.injEq] at ht
                obtain ⟨e1, e2, e3⟩ := ht
                subst e1
                subst e2
                subst e3
                exact ⟨rfl, s0, hsrc, hs0, rfl⟩
              | succ j =>
                simp only [List.getD_cons_succ] at ht ⊢
                simp only [List.length_cons, Nat.succ_lt_succ_iff] at hi
                simpa [altAt] using iht j src pth alt hi ht
    | other => simp [parse_images] at h

/-- Witness for C10: the mixed list of a bare string and a table with alt
text parses with aligned lists. -/
theorem claim_C10_witness :
    (["a", "b"] : List String).length =
      ([ImgEntry.str "a", ImgEntry.table (some "b") none (some "tb")] : List ImgEntry).length :=
  (claim_C10 [ImgEntry.str "a", ImgEntry.table (some "b") none (some "tb")]
    ["a", "b"] [none, some "tb"] rfl).1

/-- Counterexample for C7 as stated: the non-empty input beginning with a
blank line has `+++` as its first non-empty line and a matching closing
line, so per the claim it should parse, but the code checks
`lines[0].strip()` — the first line — and raises; and the body returned on
success is `lstrip`-ped of all leading whitespace, not merely of leading
blank lines. -/
theorem claim_C7_counterexample :
    ("\n+++\ndate = 1\n+++\nbody" : String) ≠ "" ∧
    specFrontMatterFails "\n+++\ndate = 1\n+++\nbody" = false ∧
    (parse_front_matter "\n+++\ndate = 1\n+++\nbody").isOk = false ∧
    parse_front_matter "+++\ndate = 1\n+++\n   body" = Except.ok ("date = 1", "body") ∧
    specStripLeadingBlankLines "   body" = "   body" ∧
    ("body" : String) ≠ "   body" :=
  ⟨by decide, by decide, by decide, rfl, by decide, by decide⟩

/-- C7 (corrected).  Parsing succeeds exactly when the input has a first
line whose stripped form is `+++` or `++++` and the same stripped token
reappears on a later line; in particular the empty input fails.  On
success the header text is the lines strictly between the first line and
the first closing line, and the body is everything after the closing line
with leading whitespace stripped. -/
theorem claim_C7 : ∀ raw : String,
    ((parse_front_matter raw).isOk = true ↔
      ∃ l0, (pySplitlines raw).head? = some l0 ∧
        (pyStrip l0 = "+++" ∨ pyStrip l0 = "++++") ∧
        ∃ l1 ∈ (pySplitlines raw).tail, pyStrip l1 = pyStrip l0) ∧
    (raw = "" → (parse_front_matter raw).isOk = false) ∧
    (∀ front body, parse_front_matter raw = Except.ok (front, body) →
      ∃ i, (pySplitlines raw).tail.findIdx?
          (fun l => pyStrip l == pyStrip ((pySplitlines raw).headD "")) = some i ∧
        front = String.intercalate "\n" ((pySplitlines raw).tail.take i) ∧
        body = pyLstrip (String.intercalate "\n" ((pySplitlines raw).tail.drop (i + 1)))) := by
  intro raw
  cases hsp : pySplitlines raw with
  | nil =>
    refine ⟨?_, ?_, ?_⟩
    · simp [parse_front_matter, hsp, Except.isOk, Except.toBool]
    · intro _
      simp [parse_front_matter, hsp, Except.isOk, Except.toBool]
    · intro front body h
      simp [parse_front_matter, hsp] at h
  | cons l0 rest =>
    by_cases htok : pyStrip l0 = "+++" ∨ pyStrip l0 = "++++"
    · cases hfi : rest.findIdx? (fun l => pyStrip l == pyStrip l0) with
      | none =>
        refine ⟨?_, ?_, ?_⟩
        · simp only [parse_front_matter, hsp, if_pos htok, hfi, Except.isOk, Except.toBool]
          constructor
          · intro h
            exact absurd h (by simp [Except.toBool])
          · rintro ⟨l0x, hl0, _, l1, hl1, hstr⟩
            simp only [List.head?_cons, Option.some.injEq] at hl0
            subst hl0
            have hnone := List.findIdx?_eq_none_iff.mp hfi l1 (by simpa using hl1)
            simp only [beq_eq_false_iff_ne, ne_eq] at hnone
            exact (hnone hstr).elim
        · intro h
          rw [h] at hsp
          simp [pySplitlines] at hsp
        · intro front body h
          simp [parse_front_matter, hsp, if_pos htok, hfi] at h
      | some i =>
        refine ⟨?_, ?_, ?_⟩
        · simp only [parse_front_matter, hsp, if_pos htok, hfi, Except.isOk, Except.toBool]
          constructor
          · intro _
            refine ⟨l0, rfl, htok, ?_⟩
            have hany : rest.any (fun l => pyStrip l == pyStrip l0) = true := by
              rw [← List.findIdx?_isSome, hfi]
              rfl
            rcases List.any_eq_true.mp hany with ⟨l1, hl1, hp⟩
            exact ⟨l1, by simpa using hl1, by simpa using hp⟩
          · intro _
            trivial
        · intro h
          rw [h] at hsp
          simp [pySplitlines] at hsp
        · intro front body h
          simp only [parse_front_matter, hsp, if_pos htok, hfi,
            Except.ok.injEq, Prod.mk.injEq] at h
          obtain ⟨h1, h2⟩ := h
          exact ⟨i, by simpa using hfi, h1.symm, h2.symm⟩
    · refine ⟨?_, ?_, ?_⟩
      · simp only [parse_front_matter, hsp, if_neg htok, Except.isOk, Except.toBool]
        constructor
        · intro h
          exact absurd h (by simp [Except.toBool])
        · rintro ⟨l0x, hl0, htok2, _⟩
          simp only [List.head?_cons, Option.some.injEq] at hl0
          subst hl0
          exact absurd htok2 htok
      · intro h
        rw [h] at hsp
        simp [pySplitlines] at hsp
      · intro front body h
        simp [parse_front_matter, hsp, if_neg htok] at h

/-- Witness for C7: a well-formed front-matter block parses successfully. -/
theorem claim_C7_witness :
    (parse_front_matter "+++\na = 1\n+++\nbody").isOk = true :=
  (claim_C7 "+++\na = 1\n+++\nbody").1.mpr
    ⟨"+++", by decide, Or.inl (by decide), "+++", by decide, by decide⟩

/-- C3 (confirmed).  For a source image with known positive dimensions and
an allow-listed extension, the variant list carries exactly the target
widths strictly below the source width (in list order, hence ascending for
a sorted width list), followed by the original tagged with the source
width as last and widest entry; every non-final entry is strictly narrower
than the source, and each generated variant's resize height is
`max 1 (round (H·t/W))`, hence at least `1`. -/
theorem claim_C3 : ∀ (stem suffix origRel : String) (widths : List Nat) (W H : Nat),
    0 < W → 0 < H → allowedSuffix suffix = true → List.Sorted (· < ·) widths →
    (generate_variants stem suffix origRel widths W H).map Prod.snd =
      widths.filter (fun t => t < W) ++ [W] ∧
    List.Sorted (· ≤ ·) ((generate_variants stem suffix origRel widths W H).map Prod.snd) ∧
    (generate_variants stem suffix origRel widths W H).getLast? = some (origRel, W) ∧
    (∀ pw ∈ (generate_variants stem suffix origRel widths W H).dropLast, pw.2 < W) ∧
    (∀ t ∈ widths, t < W →
      (variantName stem t suffix, t) ∈ generate_variants stem suffix origRel widths W H ∧
      variantHeight W H t = max 1 (pyRoundDiv (H * t) W) ∧ 1 ≤ variantHeight W H t) := by
  intro stem suffix origRel widths W H hW hH hsuf hsort
  have hcond : ((W = 0 : Prop) || (H = 0 : Prop)) = false := by
    simp only [Bool.or_eq_false_iff, decide_eq_false_iff_not]
    omega
  have hgen : generate_variants stem suffix origRel widths W H =
      (widths.filter (fun t => t < W)).map (fun t => (variantName stem t suffix, t))
        ++ [(origRel, W)] := by
    simp [generate_variants, hcond, hsuf]
  have hmap : (generate_variants stem suffix origRel widths W H).map Prod.snd =
      widths.filter (fun t => t < W) ++ [W] := by
    rw [hgen]
    simp [List.map_map, Function.comp_def]
  have hfilter_lt : ∀ t ∈ widths.filter (fun t => t < W), t < W := by
    intro t ht
    have := (List.mem_filter.mp ht).2
    simpa using this
  refine ⟨hmap, ?_, ?_, ?_, ?_⟩
  · rw [hmap]
    refine List.pairwise_append.mpr ⟨?_, ?_, ?_⟩
    · exact ((hsort.filter _).imp fun h => le_of_lt h)
    · exact List.sorted_singleton W
    · intro x hx y hy
      rcases List.mem_singleton.mp hy with rfl
      exact le_of_lt (hfilter_lt x hx)
  · rw [hgen]
    exact List.getLast?_concat _
  · rw [hgen, List.dropLast_concat]
    intro pw hpw
    rcases List.mem_map.mp hpw with ⟨t, ht, rfl⟩
    exact hfilter_lt t ht
  · intro t ht htW
    refine ⟨?_, rfl, le_max_left 1 _⟩
    rw [hgen]
    refine List.mem_append_left _ ?_
    exact List.mem_map.mpr ⟨t, List.mem_filter.mpr ⟨ht, by simpa using htW⟩, rfl⟩

/-- Witness for C3: the 800×600 JPEG with the configured width list gets
variant widths 480 and 720 plus the 800-wide original. -/
theorem claim_C3_witness :
    (generate_variants "photo" ".jpg" "static/photo.jpg" RESPONSIVE_WIDTHS 800 600).map
      Prod.snd = [480, 720, 800] :=
  (claim_C3 "photo" ".jpg" "static/photo.jpg" RESPONSIVE_WIDTHS 800 600
    (by decide) (by decide) (by decide) (by decide)).1.trans (by decide)

lemma sorted_find_min {tgt : Nat} :
    ∀ {l : List (String × Nat)}, List.Sorted widthLE l →
    ∀ {pw : String × Nat}, l.find? (fun x => tgt ≤ x.2) = some pw →
    pw ∈ l ∧ tgt ≤ pw.2 ∧ ∀ q ∈ l, tgt ≤ q.2 → pw.2 ≤ q.2 := by
  intro l
  induction l with
  | nil =>
    intro _ pw h
    simp at h
  | cons a t ih =>
    intro hs pw h
    rw [List.sorted_cons] at hs
    by_cases hpa : tgt ≤ a.2
    · rw [List.find?_cons_of_pos _ (by simpa using hpa)] at h
      simp only [Option.some.injEq] at h
      subst h
      refine ⟨List.mem_cons_self _ _, hpa, ?_⟩
      intro q hq _
      rcases List.mem_cons.mp hq with rfl | hqt
      · exact le_refl _
      · exact hs.1 q hqt
    · rw [List.find?_cons_of_neg _ (by simpa using hpa)] at h
      obtain ⟨hmem, hle, hmin⟩ := ih hs.2 h
      refine ⟨List.mem_cons_of_mem a hmem, hle, ?_⟩
      intro q hq hql
      rcases List.mem_cons.mp hq with rfl | hqt
      · exact absurd hql hpa
      · exact hmin q hqt hql

lemma find_none_bound {tgt : Nat} {l : List (String × Nat)}
    (h : l.find? (fun x => tgt ≤ x.2) = none) : ∀ q ∈ l, q.2 < tgt := by
  intro q hq
  have := List.find?_eq_none.mp h q hq
  simpa using this

lemma sorted_getLast_max :
    ∀ {l : List (String × Nat)}, List.Sorted widthLE l →
    ∀ {x : String × Nat}, l.getLast? = some x → x ∈ l ∧ ∀ q ∈ l, q.2 ≤ x.2 := by
  intro l
  induction l with
  | nil =>
    intro _ x h
    simp at h
  | cons a t ih =>
    intro hs x h
    cases t with
    | nil =>
      simp only [List.getLast?_singleton, Option.some.injEq] at h
      subst h
      refine ⟨List.mem_cons_self _ _, ?_⟩
      intro q hq
      rcases List.mem_cons.mp hq with rfl | h0
      · exact le_refl _
      · simp at h0
    | cons b u =>
      rw [List.getLast?_cons_cons] at h
      rw [List.sorted_cons] at hs
      obtain ⟨hmem, hmax⟩ := ih hs.2 h
      refine ⟨List.mem_cons_of_mem a hmem, ?_⟩
      intro q hq
      rcases List.mem_cons.mp hq with rfl | hqt
      · exact hs.1 x hmem
      · exact hmax q hqt

/-- C4 (confirmed).  `choose_primary_src` returns the fallback exactly for
an empty srcset; for a non-empty srcset it returns the path of an element
that is the narrowest variant at or above the 1040px display target when
one exists, and a widest variant otherwise. -/
theorem claim_C4 : ∀ (srcset : List (String × Nat)) (fallback : String),
    (srcset = [] → choose_primary_src srcset fallback 1040 = fallback) ∧
    (srcset ≠ [] → ∃ pw : String × Nat, pw ∈ srcset ∧
      choose_primary_src srcset fallback 1040 = pw.1 ∧
      ((∃ q ∈ srcset, 1040 ≤ q.2) →
        1040 ≤ pw.2 ∧ ∀ q ∈ srcset, 1040 ≤ q.2 → pw.2 ≤ q.2) ∧
      ((∀ q ∈ srcset, q.2 < 1040) → ∀ q ∈ srcset, q.2 ≤ pw.2)) := by
  intro srcset fallback
  constructor
  · intro h
    simp [choose_primary_src, h]
  · intro hne
    have hsort : List.Sorted widthLE (sortedBySnd srcset) :=
      List.sorted_insertionSort widthLE srcset
    have hperm : (sortedBySnd srcset).Perm srcset := List.perm_insertionSort widthLE srcset
    have hmem : ∀ x : String × Nat, x ∈ sortedBySnd srcset ↔ x ∈ srcset :=
      fun _ => hperm.mem_iff
    have hne2 : sortedBySnd srcset ≠ [] := by
      intro h0
      apply hne
      have h1 : List.Perm ([] : List (String × Nat)) srcset := h0 ▸ hperm
      exact List.Perm.eq_nil h1.symm
    cases hfind : (sortedBySnd srcset).find? (fun x => 1040 ≤ x.2) with
    | some pw =>
      obtain ⟨hm, hge, hmin⟩ := sorted_find_min hsort hfind
      refine ⟨pw, (hmem pw).mp hm, ?_, ?_, ?_⟩
      · simp [choose_primary_src, hne, choosePrimaryPair, hfind]
      · intro _
        exact ⟨hge, fun q hq hql => hmin q ((hmem q).mpr hq) hql⟩
      · intro hall
        exact absurd hge (Nat.not_le.mpr (hall pw ((hmem pw).mp hm)))
    | none =>
      cases hlast : (sortedBySnd srcset).getLast? with
      | none => exact absurd (List.getLast?_eq_none_iff.mp hlast) hne2
      | some x =>
        obtain ⟨hm, hmax⟩ := sorted_getLast_max hsort hlast
        have hall : ∀ q ∈ srcset, q.2 < 1040 := fun q hq =>
          find_none_bound hfind q ((hmem q).mpr hq)
        refine ⟨x, (hmem x).mp hm, ?_, ?_, ?_⟩
        · simp [choose_primary_src, hne, choosePrimaryPair, hfind, hlast]
        · rintro ⟨q, hq, hql⟩
          exact absurd hql (Nat.not_le.mpr (hall q hq))
        · intro _
          exact fun q hq => hmax q ((hmem q).mpr hq)

/-- Witness for C4: the empty srcset falls back to the original asset
path. -/
theorem claim_C4_witness : choose_primary_src [] "static/photo.jpg" 1040 = "static/photo.jpg" :=
  (claim_C4 [] "static/photo.jpg").1 rfl

/-- C5 (confirmed).  Primary-source selection is monotonic in the target
display width: on a non-empty srcset, raising the target never selects a
narrower variant. -/
theorem claim_C5 : ∀ (srcset : List (String × Nat)) (fallback : String) (t1 t2 : Nat),
    srcset ≠ [] → t1 ≤ t2 →
    ∃ p1 p2 : String × Nat,
      choosePrimaryPair srcset t1 = some p1 ∧ choosePrimaryPair srcset t2 = some p2 ∧
      choose_primary_src srcset fallback t1 = p1.1 ∧
      choose_primary_src srcset fallback t2 = p2.1 ∧ p1.2 ≤ p2.2 := by
  intro srcset fallback t1 t2 hne h12
  have hsort : List.Sorted widthLE (sortedBySnd srcset) :=
    List.sorted_insertionSort widthLE srcset
  have hperm : (sortedBySnd srcset).Perm srcset := List.perm_insertionSort widthLE srcset
  have hne2 : sortedBySnd srcset ≠ [] := by
    intro h0
    apply hne
    have h1 : List.Perm ([] : List (String × Nat)) srcset := h0 ▸ hperm
    exact List.Perm.eq_nil h1.symm
  cases hf2 : (sortedBySnd srcset).find? (fun x => t2 ≤ x.2) with
  | some p2 =>
    obtain ⟨hm2, hge2, _⟩ := sorted_find_min hsort hf2
    cases hf1 : (sortedBySnd srcset).find? (fun x => t1 ≤ x.2) with
    | none =>
      exact absurd (le_trans h12 hge2) (Nat.not_le.mpr (find_none_bound hf1 p2 hm2))
    | some p1 =>
      obtain ⟨hm1, hge1, hmin1⟩ := sorted_find_min hsort hf1
      refine ⟨p1, p2, ?_, ?_, ?_, ?_, ?_⟩
      · simp [choosePrimaryPair, hf1]
      · simp [choosePrimaryPair, hf2]
      · simp [choose_primary_src, hne, choosePrimaryPair, hf1]
      · simp [choose_primary_src, hne, choosePrimaryPair, hf2]
      · exact hmin1 p2 hm2 (le_trans h12 hge2)
  | none =>
    cases hlast : (sortedBySnd srcset).getLast? with
    | none => exact absurd (List.getLast?_eq_none_iff.mp hlast) hne2
    | some x =>
      obtain ⟨hmx, hmax⟩ := sorted_getLast_max hsort hlast
      cases hf1 : (sortedBySnd srcset).find? (fun x => t1 ≤ x.2) with
      | some p1 =>
        obtain ⟨hm1, _, _⟩ := sorted_find_min hsort hf1
        refine ⟨p1, x, ?_, ?_, ?_, ?_, hmax p1 hm1⟩
        · simp [choosePrimaryPair, hf1]
        · simp [choosePrimaryPair, hf2, hlast]
        · simp [choose_primary_src, hne, choosePrimaryPair, hf1]
        · simp [choose_primary_src, hne, choosePrimaryPair, hf2, hlast]
      | none =>
        refine ⟨x, x, ?_, ?_, ?_, ?_, le_refl _⟩
        · simp [choosePrimaryPair, hf1, hlast]
        · simp [choosePrimaryPair, hf2, hlast]
        · simp [choose_primary_src, hne, choosePrimaryPair, hf1, hlast]
        · simp [choose_primary_src, hne, choosePrimaryPair, hf2, hlast]

/-- Witness for C5: on a concrete srcset, raising the target from 500 to
1100 keeps the 1200-wide selection. -/
theorem claim_C5_witness :
    choose_primary_src [("a", 1200), ("b", 480)] "f" 500 = "a" := by
  obtain ⟨p1, p2, e1, e2, e3, e4, e5⟩ :=
    claim_C5 [("a", 1200), ("b", 480)] "f" 500 1100 (by decide) (by decide)
  have hp : some p1 = some (("a", 1200) : String × Nat) := by
    rw [← e1]
    decide
  rw [e3, Option.some.inj hp]

lemma ceil_div_ten (n : Nat) : ⌈(n : ℚ) / 10⌉₊ = (n + 9) / 10 := by
  apply le_antisymm
  · rw [Nat.ceil_le, div_le_iff₀ (by norm_num : (0 : ℚ) < 10)]
    have hh : n ≤ (n + 9) / 10 * 10 := by omega
    exact_mod_cast hh
  · rcases Nat.eq_zero_or_pos ((n + 9) / 10) with h | h
    · simp [h]
    · have hlt : ((n + 9) / 10 - 1) * 10 < n := by omega
      have h2 : ((n + 9) / 10 - 1 : Nat) < ⌈(n : ℚ) / 10⌉₊ := by
        rw [Nat.lt_ceil, lt_div_iff₀ (by norm_num : (0 : ℚ) < 10)]
        exact_mod_cast hlt
      omega

/-- C6 (confirmed).  The page count is `max 1 ⌈n/10⌉` for `n` posts; with
23 posts there are 3 pages, page 1 holds the first 10 posts and has no
previous link, page 3 holds 3 posts and has no next link, page 2 has both;
page 1 is emitted at the output root's index document and every page
`k ≥ 2` under `page/k/`. -/
theorem claim_C6 :
    (∀ n : Nat, totalPages n = max 1 ⌈(n : ℚ) / 10⌉₊) ∧
    totalPages 23 = 3 ∧
    (∀ (α : Type) (posts : List α), posts.length = 23 →
      pagePosts posts 1 = posts.take 10 ∧ (pagePosts posts 1).length = 10 ∧
      pagePosts posts 2 = (posts.drop 10).take 10 ∧ (pagePosts posts 2).length = 10 ∧
      (pagePosts posts 3).length = 3) ∧
    prevUrl 23 1 = none ∧ nextUrl 23 1 = some "page/2/" ∧
    prevUrl 23 2 = some "../../" ∧ nextUrl 23 2 = some "../3/" ∧
    prevUrl 23 3 = some "../2/" ∧ nextUrl 23 3 = none ∧
    pageOutputDir 1 = [] ∧ (∀ k : Nat, 2 ≤ k → pageOutputDir k = ["page", toString k]) := by
  refine ⟨?_, by decide, ?_, by decide, by decide, by decide, by decide, by decide,
    by decide, by decide, ?_⟩
  · intro n
    rw [ceil_div_ten]
    have h9 : n + POSTS_PER_PAGE - 1 = n + 9 := by
      simp [POSTS_PER_PAGE]
    simp [totalPages, h9, POSTS_PER_PAGE]
  · intro α posts h
    refine ⟨?_, ?_, ?_, ?_, ?_⟩
    · simp [pagePosts, POSTS_PER_PAGE]
    · simp [pagePosts, POSTS_PER_PAGE, h]
    · simp [pagePosts, POSTS_PER_PAGE]
    · simp [pagePosts, POSTS_PER_PAGE, h]
    · simp [pagePosts, POSTS_PER_PAGE, h]
  · intro k hk
    rw [pageOutputDir, if_neg (by omega)]

/-- Witness for C6: the third page of 23 concrete posts holds exactly 3
posts. -/
theorem claim_C6_witness : (pagePosts (List.range 23) 3).length = 3 :=
  (claim_C6.2.2.1 Nat (List.range 23) (by simp)).2.2.2.2

end Blog
